import Mathlib

/-!
Verification of the PyFibonacci repository against its specification.

This file gives a shallow embedding, in Lean 4, of the parts of the
repository that the frozen claims are about:

* the big-integer multiplication dispatcher (`src/fibonacci/multiplication.py`),
* the Karatsuba multiplier (`src/fibonacci/karatsuba.py`),
* the NTT multiplier (`src/fibonacci/fft.py`),
* the decorated calculator (`src/fibonacci/calculator.py`) with its two
  cores (`src/fibonacci/fast_doubling.py`,
  `src/fibonacci/matrix_exponentiation.py`),
* the pyfibonacci core algorithms
  (`src/src/pyfibonacci/core/algorithms.py`).

Modelling conventions, uniform in the whole file:

* Python arbitrary-precision `int` is modelled as `Int`; loop indices,
  list lengths and bit counts are `Nat`.
* Python `//` and `%` are only applied to positive divisors in this code,
  where they agree with Lean's Euclidean `Int` division `/` and `%`
  (`Int.ediv`, `Int.emod`); those are used.
* Python exceptions are modelled as `Except` error results.
* Python floats only occur as fractional progress reports; they are
  modelled as exact rationals (`ℚ`).
* The concurrent branches (`ProcessPoolExecutor`) compute the same
  products as the sequential branches with pure integer multiplication,
  so a single pure definition embeds both branches.
-/

namespace PyFib

/-- Number of binary digits of a natural number, modelling Python
`int.bit_length()` for nonnegative values: `0` for `0`, otherwise one more
than for `n / 2`. -/
def natBitLength (n : Nat) : Nat :=
  if h : n = 0 then 0 else natBitLength (n / 2) + 1
termination_by n
decreasing_by exact Nat.div_lt_self (Nat.pos_of_ne_zero h) (by omega)

/-- Python `int.bit_length()` on a Python int (negative values use the
absolute value). -/
def bit_length (x : Int) : Nat := natBitLength x.natAbs

/-- Number of decimal digits of a natural number, modelling Python
`len(str(x))` for nonnegative `x` (one digit for values below 10). -/
def decimalDigits (n : Nat) : Nat :=
  if h : n < 10 then 1 else decimalDigits (n / 10) + 1
termination_by n
decreasing_by exact Nat.div_lt_self (by omega) (by omega)

/-- Python `len(str(x))` for a nonnegative Python int `x`. -/
def decimalLength (x : Int) : Nat := decimalDigits x.toNat

end PyFib

namespace PyFib.Karatsuba

/-- Decrease facts used for the termination of `karatsuba`: with
`B = 10 ^ m2` a power of ten between 10 and the larger operand, the three
recursive argument pairs are strictly smaller in summed size. -/
theorem kara_dec (x y : Int) (hx : 10 ≤ x) (hy : 10 ≤ y)
    (B : Int) (hB : 10 ≤ B) (hBx : B ≤ x ∨ B ≤ y) :
    ((x % B).toNat + (y % B).toNat < x.toNat + y.toNat) ∧
    ((x % B + x / B).toNat + (y % B + y / B).toNat
        < x.toNat + y.toNat) ∧
    ((x / B).toNat + (y / B).toNat < x.toNat + y.toNat) := by
  have hBne : B ≠ 0 := by omega
  have hxq := Int.ediv_add_emod x B
  have hyq := Int.ediv_add_emod y B
  have hxr0 : 0 ≤ x % B := Int.emod_nonneg x hBne
  have hyr0 : 0 ≤ y % B := Int.emod_nonneg y hBne
  have hxrB : x % B < B := Int.emod_lt_of_pos x (by omega)
  have hyrB : y % B < B := Int.emod_lt_of_pos y (by omega)
  have hxq0 : 0 ≤ x / B := Int.ediv_nonneg (by omega) (by omega)
  have hyq0 : 0 ≤ y / B := Int.ediv_nonneg (by omega) (by omega)
  have hxBq : x / B ≤ B * (x / B) := by
    calc x / B = 1 * (x / B) := (one_mul _).symm
      _ ≤ B * (x / B) := mul_le_mul_of_nonneg_right (by omega) hxq0
  have hyBq : y / B ≤ B * (y / B) := by
    calc y / B = 1 * (y / B) := (one_mul _).symm
      _ ≤ B * (y / B) := mul_le_mul_of_nonneg_right (by omega) hyq0
  -- on the side that is at least B, the quotient is at least 1 and the
  -- inequality q < B * q is strict
  have strict : ∀ z : Int, 10 ≤ z → B ≤ z → z / B < B * (z / B) := by
    intro z hz hBz
    have hq0 : 0 ≤ z / B := Int.ediv_nonneg (by omega) (by omega)
    have hzq := Int.ediv_add_emod z B
    have hzrB : z % B < B := Int.emod_lt_of_pos z (by omega)
    have hq1 : 1 ≤ z / B := by
      by_contra hlt
      have hq_eq : z / B = 0 := by omega
      rw [hq_eq, mul_zero] at hzq
      omega
    calc z / B = 1 * (z / B) := (one_mul _).symm
      _ < B * (z / B) := mul_lt_mul_of_pos_right (by omega) (by omega)
  rcases hBx with hcase | hcase
  · have hs := strict x hx hcase
    refine ⟨by omega, by omega, by omega⟩
  · have hs := strict y hy hcase
    refine ⟨by omega, by omega, by omega⟩

/-- Lower bound realised by the decimal length: a positive natural with
`d` decimal digits is at least `10 ^ (d - 1)`. -/
theorem decimalDigits_lower (n : Nat) (hn : 0 < n) :
    10 ^ (PyFib.decimalDigits n - 1) ≤ n := by
  induction n using Nat.strong_induction_on with
  | _ n ih =>
    rw [PyFib.decimalDigits]
    split
    · simpa using hn
    · rename_i h
      have hn10 : 10 ≤ n := by omega
      have hrec := ih (n / 10) (Nat.div_lt_self (by omega) (by omega))
        (by omega)
      have hd : 1 ≤ PyFib.decimalDigits (n / 10) := by
        rw [PyFib.decimalDigits]
        split <;> omega
      have hsplit : 10 ^ (PyFib.decimalDigits (n / 10) + 1 - 1)
          = 10 * 10 ^ (PyFib.decimalDigits (n / 10) - 1) := by
        have he : PyFib.decimalDigits (n / 10) + 1 - 1
            = (PyFib.decimalDigits (n / 10) - 1) + 1 := by omega
        rw [he, pow_succ]
        ring
      rw [hsplit]
      have h10 : 10 * (n / 10) ≤ n := Nat.mul_div_le n 10
      calc 10 * 10 ^ (PyFib.decimalDigits (n / 10) - 1)
          ≤ 10 * (n / 10) := Nat.mul_le_mul_left 10 hrec
        _ ≤ n := h10

/-- Values of at least 10 have at least two decimal digits. -/
theorem decimalDigits_ge_two (n : Nat) (hn : 10 ≤ n) :
    2 ≤ PyFib.decimalDigits n := by
  rw [PyFib.decimalDigits]
  split
  · omega
  · have : 1 ≤ PyFib.decimalDigits (n / 10) := by
      rw [PyFib.decimalDigits]
      split <;> omega
    omega

/-- The splitting radix of a Karatsuba step is at least 10. -/
theorem kara_radix_ge (x y : Int) (hx : 10 ≤ x) :
    (10 : Int) ≤
      10 ^ (max (PyFib.decimalLength x) (PyFib.decimalLength y) / 2) := by
  have h2 : 2 ≤ max (PyFib.decimalLength x) (PyFib.decimalLength y) := by
    have hge := decimalDigits_ge_two x.toNat (by omega)
    exact le_trans hge (Nat.le_max_left _ _)
  have h1 : 1 ≤ max (PyFib.decimalLength x) (PyFib.decimalLength y) / 2 := by
    omega
  calc (10 : Int) = 10 ^ 1 := (pow_one 10).symm
    _ ≤ 10 ^ (max (PyFib.decimalLength x) (PyFib.decimalLength y) / 2) :=
        pow_le_pow_right₀ (by omega) h1

/-- The splitting radix of a Karatsuba step does not exceed the operand
with the larger decimal length. -/
theorem kara_radix_le (x y : Int) (hx : 10 ≤ x) (hy : 10 ≤ y) :
    (10 : Int) ^ (max (PyFib.decimalLength x) (PyFib.decimalLength y) / 2)
      ≤ x ∨
    (10 : Int) ^ (max (PyFib.decimalLength x) (PyFib.decimalLength y) / 2)
      ≤ y := by
  set dx := PyFib.decimalLength x with hdx
  set dy := PyFib.decimalLength y with hdy
  rcases Nat.le_total dx dy with hle | hle
  · right
    have hmax : max dx dy = dy := Nat.max_eq_right hle
    rw [hmax]
    have h2 : 2 ≤ dy := decimalDigits_ge_two y.toNat (by omega)
    have hlow : 10 ^ (dy - 1) ≤ y.toNat :=
      decimalDigits_lower y.toNat (by omega)
    have hpow : (10 : Nat) ^ (dy / 2) ≤ 10 ^ (dy - 1) :=
      Nat.pow_le_pow_right (by omega) (by omega)
    have hn : (10 : Nat) ^ (dy / 2) ≤ y.toNat := le_trans hpow hlow
    have hcast : ((10 : Nat) ^ (dy / 2) : Int) ≤ (y.toNat : Int) := by
      exact_mod_cast hn
    push_cast at hcast
    omega
  · left
    have hmax : max dx dy = dx := Nat.max_eq_left hle
    rw [hmax]
    have h2 : 2 ≤ dx := decimalDigits_ge_two x.toNat (by omega)
    have hlow : 10 ^ (dx - 1) ≤ x.toNat :=
      decimalDigits_lower x.toNat (by omega)
    have hpow : (10 : Nat) ^ (dx / 2) ≤ 10 ^ (dx - 1) :=
      Nat.pow_le_pow_right (by omega) (by omega)
    have hn : (10 : Nat) ^ (dx / 2) ≤ x.toNat := le_trans hpow hlow
    have hcast : ((10 : Nat) ^ (dx / 2) : Int) ≤ (x.toNat : Int) := by
      exact_mod_cast hn
    push_cast at hcast
    omega

/-- The Karatsuba multiplier of `src/fibonacci/karatsuba.py`.  Base case
for operands below 10; otherwise each operand is split with
`divmod(·, 10 ** m2)` at half the larger decimal length and the three
sub-products are recombined.  Python's signed intermediate
`z1 - z2 - z0` is kept in `Int`. -/
def karatsuba (x y : Int) : Int :=
  if hb : x < 10 ∨ y < 10 then
    x * y
  else
    let m := max (PyFib.decimalLength x) (PyFib.decimalLength y)
    let m2 := m / 2
    let high1 := x / (10 ^ m2)
    let low1 := x % (10 ^ m2)
    let high2 := y / (10 ^ m2)
    let low2 := y % (10 ^ m2)
    let z0 := karatsuba low1 low2
    let z1 := karatsuba (low1 + high1) (low2 + high2)
    let z2 := karatsuba high1 high2
    z2 * 10 ^ (2 * m2) + (z1 - z2 - z0) * 10 ^ m2 + z0
termination_by x.toNat + y.toNat
decreasing_by
  · have hx : 10 ≤ x := by omega
    have hy : 10 ≤ y := by omega
    exact (kara_dec x y hx hy _ (kara_radix_ge x y hx)
      (kara_radix_le x y hx hy)).1
  · have hx : 10 ≤ x := by omega
    have hy : 10 ≤ y := by omega
    have hk := (kara_dec x y hx hy _ (kara_radix_ge x y hx)
      (kara_radix_le x y hx hy)).2.1
    omega
  · have hx : 10 ≤ x := by omega
    have hy : 10 ≤ y := by omega
    exact (kara_dec x y hx hy _ (kara_radix_ge x y hx)
      (kara_radix_le x y hx hy)).2.2

end PyFib.Karatsuba

namespace PyFib

/-- Dividing a positive integer by a divisor greater than one strictly
decreases it (termination helper for the digit loops). -/
theorem ediv_toNat_lt (n d : Int) (hn : 0 < n) (hd : 1 < d) :
    (n / d).toNat < n.toNat := by
  have hq0 : 0 ≤ n / d := Int.ediv_nonneg (by omega) (by omega)
  have heq := Int.ediv_add_emod n d
  have hr0 : 0 ≤ n % d := Int.emod_nonneg n (by omega)
  by_cases h1 : 1 ≤ n / d
  · have hlt : 1 * (n / d) < d * (n / d) :=
      mul_lt_mul_of_pos_right (by omega) (by omega)
    rw [one_mul] at hlt
    omega
  · have hq_eq : n / d = 0 := by omega
    omega

end PyFib

namespace PyFib.FFT

/-- Error raised by the NTT multiplier of `src/fibonacci/fft.py`:
`ValueError("No pre-computed prime for transform size N")`. -/
inductive MulError where
  | unsupportedTransformSize : MulError
deriving DecidableEq

/-- The digit radix `BASE = 2 ** 16` of `src/fibonacci/fft.py`. -/
def BASE : Int := 2 ^ 16

/-- Loop of `to_base`: while `n > 0`, emit `n % BASE` and continue with
`n // BASE` (little-endian digits). -/
def toBaseGo (n : Int) : List Int :=
  if h : 0 < n then (n % BASE) :: toBaseGo (n / BASE) else []
termination_by n.toNat
decreasing_by exact PyFib.ediv_toNat_lt n BASE h (by decide)

/-- `to_base` of `src/fibonacci/fft.py`: the base `2 ** 16` digit list of
a nonnegative integer, least significant digit first; `[0]` for zero. -/
def to_base (n : Int) : List Int :=
  if n = 0 then [0] else toBaseGo n

/-- The pre-computed table `NTT_PRIMES` of `src/fibonacci/fft.py`,
mapping a transform length `N` to a pair `(p, g)` of a prime modulus and
a primitive root. -/
def NTT_PRIMES (N : Nat) : Option (Int × Int) :=
  if N = 2 ^ 10 then some (2 ^ 16 + 1, 3)
  else if N = 2 ^ 11 then some (2 ^ 18 * 5 + 1, 3)
  else if N = 2 ^ 12 then some (2 ^ 18 * 7 + 1, 3)
  else if N = 2 ^ 13 then some (2 ^ 18 * 11 + 1, 3)
  else if N = 2 ^ 14 then some (2 ^ 20 * 3 + 1, 3)
  else if N = 2 ^ 15 then some (2 ^ 20 * 5 + 1, 3)
  else if N = 2 ^ 16 then some (2 ^ 22 * 3 + 1, 5)
  else if N = 2 ^ 17 then some (2 ^ 24 * 3 + 1, 3)
  else if N = 2 ^ 18 then some (2 ^ 25 * 3 + 1, 3)
  else if N = 2 ^ 19 then some (2 ^ 25 * 5 + 1, 3)
  else if N = 2 ^ 20 then some (2 ^ 26 * 3 + 1, 5)
  else none

/-- Python `pow(b, e, n)` for a nonnegative exponent: the power reduced
modulo `n`, a value in `[0, n)` for positive `n`. -/
def powMod (b : Int) (e : Nat) (n : Int) : Int := (b ^ e) % n

/-- Python `pow(x, -1, n)`: the modular inverse in `[0, n)`.  In the NTT
the base is always a unit modulo the prime `n`, where the Bezout
coefficient of the extended gcd reduced modulo `n` is that inverse. -/
def invMod (x n : Int) : Int := (Nat.gcdA x.toNat n.toNat) % n

/-- Inner `while j & bit:` loop of the bit-reversal permutation in `ntt`:
clears trailing set bits of `j`, halving `bit`; returns the final
`(j, bit)`. -/
def revStep (j bit : Nat) : Nat × Nat :=
  if h : j &&& bit ≠ 0 then revStep (j ^^^ bit) (bit >>> 1) else (j, bit)
termination_by bit
decreasing_by
  have hb : bit ≠ 0 := by
    intro h0
    rw [h0] at h
    simp [Nat.and_zero] at h
  simp only [Nat.shiftRight_succ, Nat.shiftRight_zero]
  exact Nat.div_lt_self (Nat.pos_of_ne_zero hb) (by omega)

/-- Bit-reversal permutation loop of `ntt` (`for i in range(1, N)`),
counting down the remaining iterations; `i` is the current index and `j`
the incrementally maintained reversed index. -/
def bitrevGo (N : Nat) : Nat → Nat → Nat → List Int → List Int
  | 0, _, _, a => a
  | cnt + 1, i, j, a =>
    let p := revStep j (N >>> 1)
    let j2 := p.1 ^^^ p.2
    let a2 := if i < j2 then (a.set i (a.getD j2 0)).set j2 (a.getD i 0)
      else a
    bitrevGo N cnt (i + 1) j2 a2

/-- Innermost butterfly loop of `ntt` (`for j in range(len_ // 2)`): `cnt`
counts the remaining iterations, `base` is the block start `i`, `half` is
`len_ // 2` and `w` the running twiddle power. -/
def butterflyJ (n w_len : Int) (half : Nat) :
    Nat → Nat → Nat → Int → List Int → List Int
  | 0, _, _, _, a => a
  | cnt + 1, base, j, w, a =>
    let u := a.getD (base + j) 0
    let v := (a.getD (base + j + half) 0 * w) % n
    let a1 := a.set (base + j) ((u + v) % n)
    let a2 := a1.set (base + j + half) ((u - v) % n)
    let w2 := (w * w_len) % n
    butterflyJ n w_len half cnt base (j + 1) w2 a2

/-- Middle loop of `ntt` (`while i < N: ... i += len_`), advancing block
by block across the array. -/
def butterflyI (N : Nat) (len half : Nat) (hlen : 0 < len)
    (n w_len : Int) (i : Nat) (a : List Int) : List Int :=
  if i < N then
    butterflyI N len half hlen n w_len (i + len)
      (butterflyJ n w_len half half i 0 1 a)
  else a
termination_by N - i
decreasing_by omega

/-- Outer loop of `ntt` (`while len_ <= N: ... len_ <<= 1`), one
Cooley-Tukey stage per iteration.  The forward twiddle is
`pow(root, (n - 1) // len_, n)`; the inverse transform inverts it with
`pow(·, -1, n)`. -/
def stageLoop (N : Nat) (n root : Int) (inverse : Bool)
    (len : Nat) (hlen : 2 ≤ len) (a : List Int) : List Int :=
  if len ≤ N then
    let w_len := powMod root ((n - 1) / (len : Int)).toNat n
    let w_len := if inverse then invMod w_len n else w_len
    stageLoop N n root inverse (len * 2) (by omega)
      (butterflyI N len (len / 2) (by omega) n w_len 0 a)
  else a
termination_by N + 1 - len
decreasing_by omega

/-- The iterative number-theoretic transform `ntt` of
`src/fibonacci/fft.py`: bit-reversal permutation followed by the
Cooley-Tukey butterfly stages, in place on a list of residues. -/
def ntt (a : List Int) (n root : Int) (inverse : Bool) : List Int :=
  let N := a.length
  stageLoop N n root inverse 2 (by omega) (bitrevGo N (N - 1) 1 0 a)

/-- Trailing-carry loop of the reconstruction in `fft.multiply`
(`while carry > 0`). -/
def carryTail (carry : Int) (i : Nat) (result : Int) : Int :=
  if h : 0 < carry then
    carryTail (carry / BASE) (i + 1) (result + (carry % BASE) * BASE ^ i)
  else result
termination_by carry.toNat
decreasing_by exact PyFib.ediv_toNat_lt carry BASE h (by decide)

/-- Main reconstruction loop of `fft.multiply`
(`for i in range(N): val = c[i] + carry; ...`): rebuilds the integer from
the coefficient list with carry propagation in base `2 ** 16`. -/
def reconstruct : List Int → Nat → Int → Int → Int
  | [], i, carry, result => carryTail carry i result
  | d :: rest, i, carry, result =>
    let val := d + carry
    reconstruct rest (i + 1) (val / BASE)
      (result + (val % BASE) * BASE ^ i)

/-- Transform-length loop of `fft.multiply`
(`N = 1; while N < len(n_a) + len(n_b): N <<= 1`). -/
def computeNGo (N s : Nat) (h : 0 < N) : Nat :=
  if N < s then computeNGo (N * 2) s (by omega) else N
termination_by s - N
decreasing_by omega

/-- The transform length chosen by `fft.multiply` for a combined digit
count `s`. -/
def computeN (s : Nat) : Nat := computeNGo 1 s (by omega)

/-- The NTT multiplier `multiply` of `src/fibonacci/fft.py`: convert both
operands to base `2 ** 16`, zero-pad to the transform length `N`, fail
with `ValueError` when `NTT_PRIMES` has no entry for `N`, otherwise
transform, multiply pointwise, inverse-transform, scale by the inverse of
`N` and reconstruct the integer with carries. -/
def multiply (a b : Int) : Except MulError Int :=
  let n_a := to_base a
  let n_b := to_base b
  let N := computeN (n_a.length + n_b.length)
  let n_a2 := n_a ++ List.replicate (N - n_a.length) 0
  let n_b2 := n_b ++ List.replicate (N - n_b.length) 0
  match NTT_PRIMES N with
  | none => .error .unsupportedTransformSize
  | some pr =>
    let p := pr.1
    let root := pr.2
    let a_ntt := ntt n_a2 p root false
    let b_ntt := ntt n_b2 p root false
    let c_ntt := List.zipWith (fun x y => (x * y) % p) a_ntt b_ntt
    let c := ntt c_ntt p root true
    let inv_N := invMod (N : Int) p
    let c2 := c.map (fun x => (x * inv_N) % p)
    .ok (reconstruct c2 0 0 0)

end PyFib.FFT

namespace PyFib.Multiplication

open PyFib

/-- `KARATSUBA_THRESHOLD` of `src/fibonacci/multiplication.py`. -/
def KARATSUBA_THRESHOLD : Nat := 4096

/-- `FFT_THRESHOLD` of `src/fibonacci/multiplication.py`. -/
def FFT_THRESHOLD : Nat := 20000

/-- The multiplication dispatcher `multiply` of
`src/fibonacci/multiplication.py`: direct product when either operand is
below `KARATSUBA_THRESHOLD` bits, Karatsuba when either is below
`FFT_THRESHOLD` bits, otherwise the NTT multiplier (whose `ValueError`
propagates to the caller). -/
def multiply (a b : Int) : Except FFT.MulError Int :=
  let size_a := bit_length a
  let size_b := bit_length b
  if size_a < KARATSUBA_THRESHOLD ∨ size_b < KARATSUBA_THRESHOLD then
    .ok (a * b)
  else if size_a < FFT_THRESHOLD ∨ size_b < FFT_THRESHOLD then
    .ok (Karatsuba.karatsuba a b)
  else
    FFT.multiply a b

/-- Tag naming which of the three code paths of the dispatcher executes. -/
inductive MulAlg where
  | schoolbook : MulAlg
  | karatsubaAlg : MulAlg
  | nttAlg : MulAlg
deriving DecidableEq

/-- The branch of `multiply` that executes for a given operand pair,
with exactly the branch conditions of the source. -/
def selectedAlgorithm (a b : Int) : MulAlg :=
  let size_a := bit_length a
  let size_b := bit_length b
  if size_a < KARATSUBA_THRESHOLD ∨ size_b < KARATSUBA_THRESHOLD then
    .schoolbook
  else if size_a < FFT_THRESHOLD ∨ size_b < FFT_THRESHOLD then
    .karatsubaAlg
  else
    .nttAlg

/-- The selection policy as claim C3 states it (decided by the maximum
of the two operand bit-lengths), written from the claim's words for
comparison with the code's `selectedAlgorithm`. -/
def specSelectedAlgorithm (a b : Int) : MulAlg :=
  if max (bit_length a) (bit_length b) < KARATSUBA_THRESHOLD then
    .schoolbook
  else if max (bit_length a) (bit_length b) < FFT_THRESHOLD then
    .karatsubaAlg
  else
    .nttAlg

end PyFib.Multiplication

namespace PyFib.Calculator

/-- Python exceptions seen by the calculator layer: `ValueError` for a
negative index, and the `RuntimeError` that `Calculator.calculate` raises
around (and chained to) any exception escaping the wrapped core. -/
inductive PyErr where
  | valueError : PyErr
  | runtimeError : PyErr → PyErr
deriving DecidableEq

/-- `MAX_FIB_UINT64` of `src/fibonacci/calculator.py`. -/
def MAX_FIB_UINT64 : Nat := 93

/-- One iteration of the lookup-table construction: append the sum of the
last two entries. -/
def lutStep (l : List Int) : List Int :=
  l ++ [l.getD (l.length - 1) 0 + l.getD (l.length - 2) 0]

/-- Iterated lookup-table construction. -/
def lutBuild : Nat → List Int → List Int
  | 0, l => l
  | k + 1, l => lutBuild k (lutStep l)

/-- The module-level `_fib_lookup_table` of `src/fibonacci/calculator.py`:
starts as `[0, 1]` and appends `table[i-1] + table[i-2]` for
`i in range(2, MAX_FIB_UINT64 + 1)` (92 iterations). -/
def _fib_lookup_table : List Int := lutBuild 92 [0, 1]

/-- Delivery of raw progress reports through `ProgressReporter.report`,
which forwards a value to the callback only when `0.0 <= p <= 1.0`.
The resulting list is the sequence of values the callback receives. -/
def reportFilter (ps : List ℚ) : List ℚ :=
  ps.filter (fun p => decide (0 ≤ p ∧ p ≤ 1))

/-- A calculation core (`CoreCalculator.calculate_core`): from the index
it produces either a value or an exception, together with the raw values
it passed to `reporter.report` along the way.  The parallelisation
threshold only selects between branches that compute the same products,
so it does not appear. -/
def CoreFn : Type := Nat → Except PyErr Int × List ℚ

/-- `Calculator.calculate` of `src/fibonacci/calculator.py`: reject a
negative index with `ValueError`; serve indices up to `MAX_FIB_UINT64`
from the lookup table, reporting progress `1.0`; otherwise run the
wrapped core, report `1.0` after it succeeds, and wrap any exception it
raises in a `RuntimeError` chained to it.  The second component is the
sequence of progress values delivered to the callback. -/
def calculate (core : CoreFn) (n : Int) : Except PyErr Int × List ℚ :=
  if n < 0 then (.error .valueError, [])
  else if n ≤ (MAX_FIB_UINT64 : Int) then
    (.ok (_fib_lookup_table.getD n.toNat 0), reportFilter [1])
  else
    match core n.toNat with
    | (.ok v, ps) => (.ok v, reportFilter (ps ++ [1]))
    | (.error e, ps) => (.error (.runtimeError e), reportFilter ps)

end PyFib.Calculator

namespace PyFib.FastDoubling

open PyFib.Calculator

/-- Big-endian bit list of a positive natural, modelling `bin(n)[2:]`. -/
def bitsGo (n : Nat) : List Bool :=
  if h : n = 0 then [] else bitsGo (n / 2) ++ [decide (n % 2 = 1)]
termination_by n
decreasing_by exact Nat.div_lt_self (Nat.pos_of_ne_zero h) (by omega)

/-- `total_work = sum(4**i for i in range(num_bits))` of
`FastDoubling.calculate_core`. -/
def totalWork : Nat → Nat
  | 0 => 0
  | k + 1 => totalWork k + 4 ^ k

/-- The loop `for i, bit in enumerate(bits[1:], 1)` of
`FastDoubling.calculate_core`: a doubling step
(`F(2k) = F(k)*(2*F(k+1)-F(k))`, `F(2k+1) = F(k)^2 + F(k+1)^2`, the same
products in the sequential and the parallel branch), an addition step
when the bit is set, then a progress report
`min(work_done / total_work, 1.0)` guarded by `total_work > 0`.
Returns the final `f_k` and the emitted reports. -/
def fdLoop : List Bool → Int → Int → Nat → Nat → Nat → Int × List ℚ
  | [], fk, _, _, _, _ => (fk, [])
  | bit :: rest, fk, fk1, i, work_done, total_work =>
    let f2k := fk * (2 * fk1 - fk)
    let f2k1 := fk * fk + fk1 * fk1
    let st := if bit then (f2k1, f2k + f2k1) else (f2k, f2k1)
    let wd2 := work_done + 4 ^ i
    let rep : List ℚ :=
      if 0 < total_work then
        [min ((wd2 : ℚ) / (total_work : ℚ)) 1]
      else []
    let r := fdLoop rest st.1 st.2 (i + 1) wd2 total_work
    (r.1, rep ++ r.2)

/-- `FastDoubling.calculate_core` of `src/fibonacci/fast_doubling.py`:
early returns for `n = 0` and `n = 1`, otherwise the doubling loop over
`bin(n)[2:]` skipping the first bit, started from `(f_k, f_k1) = (0, 1)`. -/
def calculate_core (n : Nat) : Except PyErr Int × List ℚ :=
  if n = 0 then (.ok 0, [])
  else if n = 1 then (.ok 1, [])
  else
    let bits := bitsGo n
    let r := fdLoop bits.tail 0 1 1 0 (totalWork bits.length)
    (.ok r.1, r.2)

end PyFib.FastDoubling

namespace PyFib.MatrixExponentiation

open PyFib.Calculator

/-- `Matrix2x2` of `src/fibonacci/matrix_exponentiation.py`. -/
structure Matrix2x2 where
  a : Int
  b : Int
  c : Int
  d : Int
deriving DecidableEq

/-- `_multiply_matrices_sequential` (the parallel variant assembles the
same eight products). -/
def mulMat (m1 m2 : Matrix2x2) : Matrix2x2 :=
  ⟨m1.a * m2.a + m1.b * m2.c, m1.a * m2.b + m1.b * m2.d,
   m1.c * m2.a + m1.d * m2.c, m1.c * m2.b + m1.d * m2.d⟩

/-- `_square_symmetric_sequential` (the parallel variant assembles the
same four products). -/
def sqSym (m : Matrix2x2) : Matrix2x2 :=
  ⟨m.a * m.a + m.b * m.b, m.b * (m.a + m.d),
   m.b * (m.a + m.d), m.b * m.b + m.d * m.d⟩

/-- The loop `for i in range(bit_length)` of
`MatrixExponentiation.calculate_core`: multiply the running result by the
base when bit `i` of the exponent is set, square the (symmetric) base
except on the last iteration, then report progress
`(i + 1) / bit_length`.  `cnt` counts the remaining iterations. -/
def mxLoop (expo bl : Nat) : Nat → Nat → Matrix2x2 → Matrix2x2 →
    Matrix2x2 × List ℚ
  | 0, _, result, _ => (result, [])
  | cnt + 1, i, result, base =>
    let result2 := if (expo >>> i) &&& 1 = 1 then mulMat result base
      else result
    let base2 := if i < bl - 1 then sqSym base else base
    let rep : ℚ := ((i : ℚ) + 1) / (bl : ℚ)
    let r := mxLoop expo bl cnt (i + 1) result2 base2
    (r.1, rep :: r.2)

/-- `MatrixExponentiation.calculate_core` of
`src/fibonacci/matrix_exponentiation.py`: early returns for `n = 0` and
`n = 1`, otherwise binary exponentiation of the Fibonacci matrix to the
power `n - 1`, returning the `(0,0)` entry. -/
def calculate_core (n : Nat) : Except PyErr Int × List ℚ :=
  if n = 0 then (.ok 0, [])
  else if n = 1 then (.ok 1, [])
  else
    let expo := n - 1
    let bl := PyFib.natBitLength expo
    let r := mxLoop expo bl bl 0 ⟨1, 0, 0, 1⟩ ⟨1, 1, 1, 0⟩
    (.ok r.1.a, r.2)

end PyFib.MatrixExponentiation

namespace PyFibonacci.Algorithms

open PyFib.Calculator

/-- The iteration `for _ in range(n - 1)` of `fib_iterative` starting
from `a, b = 0, 1`. -/
def iterGo : Nat → Int → Int → Int
  | 0, _, b => b
  | k + 1, a, b => iterGo k b (a + b)

/-- `fib_iterative` of `src/src/pyfibonacci/core/algorithms.py`: raise
`ValueError` for a negative index, return `0` for `0`, otherwise iterate
the recurrence `n - 1` times from `(0, 1)` and return `b`. -/
def fib_iterative (n : Int) : Except PyErr Int :=
  if n < 0 then .error .valueError
  else if n = 0 then .ok 0
  else .ok (iterGo (n.toNat - 1) 0 1)

/-- `multiply_matrices` of `fib_matrix`, with
`pyfibonacci.core.multiplication.multiply` inlined: both of that
dispatcher's branches (standard and process-pool) compute the plain
product of their operands. -/
def mulMat4 (A B : Int × Int × Int × Int) : Int × Int × Int × Int :=
  (A.1 * B.1 + A.2.1 * B.2.2.1,
   A.1 * B.2.1 + A.2.1 * B.2.2.2,
   A.2.2.1 * B.1 + A.2.2.2 * B.2.2.1,
   A.2.2.1 * B.2.1 + A.2.2.2 * B.2.2.2)

/-- `matrix_power` of `fib_matrix`: binary exponentiation by squaring
(identity for exponent 0, the matrix itself for 1, square of the half
power for even exponents, and an extra factor for odd ones). -/
def matrix_power (A : Int × Int × Int × Int) (m : Nat) :
    Int × Int × Int × Int :=
  if m = 0 then (1, 0, 0, 1)
  else if m = 1 then A
  else if m % 2 = 0 then
    let half := matrix_power A (m / 2)
    mulMat4 half half
  else
    let half := matrix_power A ((m - 1) / 2)
    mulMat4 A (mulMat4 half half)
termination_by m
decreasing_by
  · exact Nat.div_lt_self (by omega) (by omega)
  · omega

/-- `fib_matrix` of `src/src/pyfibonacci/core/algorithms.py`: raise
`ValueError` for a negative index, return `0` for `0`, otherwise raise
the Fibonacci matrix `(1, 1, 1, 0)` to the power `n - 1` and return its
top-left entry. -/
def fib_matrix (n : Int) : Except PyErr Int :=
  if n < 0 then .error .valueError
  else if n = 0 then .ok 0
  else .ok (matrix_power (1, 1, 1, 0) (n.toNat - 1)).1

/-- The recursive pair function `_fib_fast_doubling` of
`fib_fast_doubling`: returns `(F(m), F(m+1))` by halving `m`, with the
same multiplications as the source (the context-based `multiply` always
computes the plain product). -/
def fdPair (m : Nat) : Int × Int :=
  if m = 0 then (0, 1)
  else
    let p := fdPair (m / 2)
    let fk := p.1
    let fk1 := p.2
    let fk_squared := fk * fk
    let fk1_squared := fk1 * fk1
    let term := 2 * fk1 - fk
    let f2k := fk * term
    let f2k1 := fk1_squared + fk_squared
    if m % 2 = 0 then (f2k, f2k1) else (f2k1, f2k + f2k1)
termination_by m
decreasing_by exact Nat.div_lt_self (by omega) (by omega)

/-- `fib_fast_doubling` of `src/src/pyfibonacci/core/algorithms.py`:
raise `ValueError` for a negative index, return `0` for `0`, otherwise
the first component of the recursive doubling pair at `n`. -/
def fib_fast_doubling (n : Int) : Except PyErr Int :=
  if n < 0 then .error .valueError
  else if n = 0 then .ok 0
  else .ok (fdPair n.toNat).1

end PyFibonacci.Algorithms

namespace PyFib

/-- `natBitLength` of zero is zero. -/
theorem natBitLength_zero : natBitLength 0 = 0 := by
  rw [natBitLength]
  simp

/-- `natBitLength` of a power of two, matching Python
`(2 ** k).bit_length() == k + 1`. -/
theorem natBitLength_two_pow (k : Nat) : natBitLength (2 ^ k) = k + 1 := by
  induction k with
  | zero =>
    rw [natBitLength]
    norm_num [natBitLength_zero]
  | succ k ih =>
    rw [natBitLength]
    have hne : 2 ^ (k + 1) ≠ 0 := by positivity
    rw [dif_neg hne]
    have hdiv : 2 ^ (k + 1) / 2 = 2 ^ k := by
      rw [pow_succ]
      exact Nat.mul_div_cancel _ (by omega)
    rw [hdiv, ih]

/-- Bit length of an integer power of `65536 = 2 ^ 16`. -/
theorem bit_length_base_pow (k : Nat) :
    bit_length ((65536 : Int) ^ k) = 16 * k + 1 := by
  rw [bit_length]
  have h1 : ((65536 : Int) ^ k).natAbs = 65536 ^ k := by
    rw [Int.natAbs_pow]
    norm_num
  rw [h1]
  have h2 : (65536 : Nat) ^ k = 2 ^ (16 * k) := by
    rw [pow_mul]
    norm_num
  rw [h2, natBitLength_two_pow]

/-- Bit length of `1`. -/
theorem bit_length_one : bit_length 1 = 1 := by
  have := bit_length_base_pow 0
  simpa using this

end PyFib

namespace PyFib.FFT

/-- `BASE` is positive. -/
theorem BASE_pos : (0 : Int) < BASE := by decide

/-- The digit loop on a power of `BASE` produces exactly one digit per
power plus the leading digit. -/
theorem toBaseGo_base_pow_length (k : Nat) :
    (toBaseGo (BASE ^ k)).length = k + 1 := by
  induction k with
  | zero =>
    rw [toBaseGo]
    rw [dif_pos (by norm_num)]
    have h0 : (1 : Int) / BASE = 0 := by decide
    simp only [pow_zero, h0]
    rw [toBaseGo]
    norm_num
  | succ k ih =>
    rw [toBaseGo]
    have hpos : (0 : Int) < BASE ^ (k + 1) := pow_pos BASE_pos _
    rw [dif_pos hpos]
    have hdiv : BASE ^ (k + 1) / BASE = BASE ^ k := by
      rw [pow_succ]
      exact Int.mul_ediv_cancel _ (by decide)
    rw [hdiv]
    simp [ih]

/-- Digit-list length of a power of `BASE` under `to_base`. -/
theorem to_base_base_pow_length (k : Nat) :
    (to_base (BASE ^ k)).length = k + 1 := by
  rw [to_base]
  have hne : (BASE : Int) ^ k ≠ 0 := (pow_pos BASE_pos k).ne'
  rw [if_neg hne]
  exact toBaseGo_base_pow_length k

/-- Every digit list produced by `to_base` is nonempty for a nonnegative
input. -/
theorem to_base_length_pos (a : Int) (ha : 0 ≤ a) :
    0 < (to_base a).length := by
  rw [to_base]
  by_cases h : a = 0
  · simp [h]
  · rw [if_neg h]
    rw [toBaseGo]
    rw [dif_pos (by omega)]
    simp

/-- Specification of the transform-length loop: started at the power
`2 ^ j`, it returns the least power of two that is at least `s` among
exponents of at least `j`. -/
theorem computeNGo_spec (s : Nat) :
    ∀ d j (h : 0 < 2 ^ j), s - 2 ^ j ≤ d →
      ∃ k, j ≤ k ∧ computeNGo (2 ^ j) s h = 2 ^ k ∧ s ≤ 2 ^ k ∧
        ∀ m, j ≤ m → s ≤ 2 ^ m → k ≤ m := by
  intro d
  induction d with
  | zero =>
    intro j h hd
    rw [computeNGo]
    have hns : ¬ 2 ^ j < s := by omega
    rw [if_neg hns]
    exact ⟨j, le_refl j, rfl, by omega, fun m hm _ => hm⟩
  | succ d ih =>
    intro j h hd
    rw [computeNGo]
    by_cases hlt : 2 ^ j < s
    · rw [if_pos hlt]
      have hpow : 2 ^ j * 2 = 2 ^ (j + 1) := by
        rw [pow_succ]
      have hnext : 0 < 2 ^ (j + 1) := by positivity
      have harg : computeNGo (2 ^ j * 2) s (by omega)
          = computeNGo (2 ^ (j + 1)) s hnext := by
        congr 1
      rw [harg]
      have hmeas : s - 2 ^ (j + 1) ≤ d := by
        have : 2 ^ (j + 1) = 2 ^ j + 2 ^ j := by
          rw [pow_succ]
          omega
        omega
      obtain ⟨k, hk1, hk2, hk3, hk4⟩ := ih (j + 1) hnext hmeas
      refine ⟨k, by omega, hk2, hk3, ?_⟩
      intro m hm hsm
      have hjm : j + 1 ≤ m := by
        by_contra hc
        have hmj : m = j := by omega
        rw [hmj] at hsm
        omega
      exact hk4 m hjm hsm
    · rw [if_neg hlt]
      exact ⟨j, le_refl j, rfl, by omega, fun m hm _ => hm⟩

/-- The transform length chosen by `fft.multiply` is the least power of
two that is at least the combined digit count. -/
theorem computeN_spec (s : Nat) :
    ∃ k, computeN s = 2 ^ k ∧ s ≤ 2 ^ k ∧ ∀ m, s ≤ 2 ^ m → k ≤ m := by
  obtain ⟨k, _, hk2, hk3, hk4⟩ :=
    computeNGo_spec s (s - 1) 0 (by omega) (by omega)
  exact ⟨k, hk2, hk3, fun m hm => hk4 m (by omega) hm⟩

/-- For a combined digit count strictly between two adjacent powers of
two, the loop picks the upper one. -/
theorem computeN_eq_pow (s t : Nat) (h1 : 2 ^ (t - 1) < s)
    (h2 : s ≤ 2 ^ t) : computeN s = 2 ^ t := by
  obtain ⟨k, hk1, hk2, hk3⟩ := computeN_spec s
  have hkt : k ≤ t := hk3 t h2
  have htk : t ≤ k := by
    by_contra hc
    have hkle : k ≤ t - 1 := by omega
    have : 2 ^ k ≤ 2 ^ (t - 1) := Nat.pow_le_pow_right (by omega) hkle
    omega
  have : k = t := by omega
  rw [hk1, this]

/-- The NTT multiplier fails with the unsupported-size error exactly when
the prime table has no entry for the computed transform length. -/
theorem fft_multiply_error_iff (a b : Int) :
    multiply a b = .error .unsupportedTransformSize ↔
      NTT_PRIMES (computeN ((to_base a).length + (to_base b).length))
        = none := by
  cases h : NTT_PRIMES (computeN ((to_base a).length + (to_base b).length))
    with
  | none => simp [multiply, h]
  | some pr => simp [multiply, h]

/-- When the prime table has an entry for the computed transform length,
the NTT multiplier returns a value (it raises nothing). -/
theorem fft_multiply_ok_of_some (a b : Int) (pr : Int × Int)
    (h : NTT_PRIMES (computeN ((to_base a).length + (to_base b).length))
      = some pr) : ∃ v, multiply a b = .ok v := by
  simp only [multiply, h]
  exact ⟨_, rfl⟩

end PyFib.FFT

namespace PyFib.Multiplication

open PyFib PyFib.FFT

/-- Unfolding of the literal radix. -/
theorem BASE_eq : FFT.BASE = 65536 := by decide

/-- The dispatcher executes exactly the branch named by
`selectedAlgorithm`. -/
theorem multiply_matches_selection (a b : Int) :
    multiply a b =
      match selectedAlgorithm a b with
      | .schoolbook => .ok (a * b)
      | .karatsubaAlg => .ok (Karatsuba.karatsuba a b)
      | .nttAlg => FFT.multiply a b := by
  by_cases h1 : bit_length a < KARATSUBA_THRESHOLD ∨
      bit_length b < KARATSUBA_THRESHOLD
  · simp [multiply, selectedAlgorithm, h1]
  · by_cases h2 : bit_length a < FFT_THRESHOLD ∨ bit_length b < FFT_THRESHOLD
    · simp [multiply, selectedAlgorithm, h1, h2]
    · simp [multiply, selectedAlgorithm, h1, h2]

/-- In the NTT regime (neither operand below `FFT_THRESHOLD` bits) the
dispatcher is the NTT multiplier. -/
theorem multiply_ntt_branch (a b : Int)
    (h : ¬ (bit_length a < FFT_THRESHOLD ∨ bit_length b < FFT_THRESHOLD)) :
    multiply a b = FFT.multiply a b := by
  have h4 : ¬ (bit_length a < KARATSUBA_THRESHOLD ∨
      bit_length b < KARATSUBA_THRESHOLD) := by
    unfold KARATSUBA_THRESHOLD
    unfold FFT_THRESHOLD at h
    omega
  simp [multiply, h, h4]

/-- The prime table has entries exactly for the transform lengths
`2 ^ 10` through `2 ^ 20`. -/
theorem NTT_PRIMES_none_iff (N : Nat) :
    FFT.NTT_PRIMES N = none ↔ ¬ ∃ k, 10 ≤ k ∧ k ≤ 20 ∧ N = 2 ^ k := by
  constructor
  · intro hnone
    rintro ⟨k, hk10, hk20, rfl⟩
    interval_cases k <;> revert hnone <;> decide
  · intro hno
    have g10 : N ≠ 2 ^ 10 := fun h => hno ⟨10, by omega, by omega, h⟩
    have g11 : N ≠ 2 ^ 11 := fun h => hno ⟨11, by omega, by omega, h⟩
    have g12 : N ≠ 2 ^ 12 := fun h => hno ⟨12, by omega, by omega, h⟩
    have g13 : N ≠ 2 ^ 13 := fun h => hno ⟨13, by omega, by omega, h⟩
    have g14 : N ≠ 2 ^ 14 := fun h => hno ⟨14, by omega, by omega, h⟩
    have g15 : N ≠ 2 ^ 15 := fun h => hno ⟨15, by omega, by omega, h⟩
    have g16 : N ≠ 2 ^ 16 := fun h => hno ⟨16, by omega, by omega, h⟩
    have g17 : N ≠ 2 ^ 17 := fun h => hno ⟨17, by omega, by omega, h⟩
    have g18 : N ≠ 2 ^ 18 := fun h => hno ⟨18, by omega, by omega, h⟩
    have g19 : N ≠ 2 ^ 19 := fun h => hno ⟨19, by omega, by omega, h⟩
    have g20 : N ≠ 2 ^ 20 := fun h => hno ⟨20, by omega, by omega, h⟩
    unfold FFT.NTT_PRIMES
    rw [if_neg g10, if_neg g11, if_neg g12, if_neg g13, if_neg g14,
      if_neg g15, if_neg g16, if_neg g17, if_neg g18, if_neg g19,
      if_neg g20]

/-- The NTT multiplier fails with the unsupported-size error on a pair of
powers of the radix whose combined digit count forces an absent transform
length. -/
theorem fft_error_at_base_pows (j k t : Nat)
    (h1 : 2 ^ (t - 1) < j + k + 2) (h2 : j + k + 2 ≤ 2 ^ t)
    (hN : FFT.NTT_PRIMES (2 ^ t) = none) :
    FFT.multiply ((65536 : Int) ^ j) ((65536 : Int) ^ k)
      = .error .unsupportedTransformSize := by
  apply (fft_multiply_error_iff _ _).mpr
  rw [← BASE_eq]
  rw [to_base_base_pow_length, to_base_base_pow_length]
  have hsum : (j + 1) + (k + 1) = j + k + 2 := by omega
  rw [hsum]
  rw [computeN_eq_pow _ t h1 h2]
  exact hN

end PyFib.Multiplication

namespace PyFib

/-- Bit length of an integer power of two. -/
theorem bit_length_two_pow (m : Nat) :
    bit_length ((2 : Int) ^ m) = m + 1 := by
  rw [bit_length]
  have h1 : ((2 : Int) ^ m).natAbs = 2 ^ m := by
    rw [Int.natAbs_pow]
    norm_num
  rw [h1, natBitLength_two_pow]

end PyFib

open PyFib PyFib.FFT PyFib.Multiplication in
/-- Claim C1: the dispatcher is claimed to return the exact product
`a * b` for every pair of nonnegative integers, in all three size
regimes.  The code violates this in the NTT regime; this theorem
evaluates the dispatcher at one failing input, a pair of operands of
`16 * 2 ^ 22 + 1` bits each, where it raises the unsupported-size
`ValueError` instead of returning the product. -/
theorem C1_ntt_regime_hard_failure :
    Multiplication.multiply ((65536 : Int) ^ (2 ^ 22))
        ((65536 : Int) ^ (2 ^ 22))
      = .error FFT.MulError.unsupportedTransformSize ∧
    Multiplication.multiply ((65536 : Int) ^ (2 ^ 22))
        ((65536 : Int) ^ (2 ^ 22))
      ≠ .ok ((65536 : Int) ^ (2 ^ 22) * (65536 : Int) ^ (2 ^ 22)) := by
  have hbl : bit_length ((65536 : Int) ^ (2 ^ 22)) = 16 * 2 ^ 22 + 1 :=
    bit_length_base_pow _
  have hcond : ¬ (bit_length ((65536 : Int) ^ (2 ^ 22)) < FFT_THRESHOLD ∨
      bit_length ((65536 : Int) ^ (2 ^ 22)) < FFT_THRESHOLD) := by
    rw [hbl]
    norm_num [FFT_THRESHOLD]
  have hmul := multiply_ntt_branch _ _ hcond
  have hfft := fft_error_at_base_pows (2 ^ 22) (2 ^ 22) 24
    (by norm_num) (by norm_num) (by decide)
  refine ⟨?_, ?_⟩
  · rw [hmul]
    exact hfft
  · rw [hmul, hfft]
    simp

open PyFib PyFib.FFT PyFib.Multiplication in
/-- Claim C3, counterexample: the claim says the dispatcher selects by
the maximum operand bit-length.  At `(2 ^ 4095, 1)` the maximum is
exactly `KARATSUBA_THRESHOLD` bits, so the claimed policy prescribes the
Karatsuba path, but the code takes the schoolbook branch (its `or`-test
keys on the smaller operand).  At `(65536 ^ 2 ^ 22, 1)` the maximum is in
the claimed NTT tier, so the claim equates `multiply` with
`fft.multiply`; the code returns the schoolbook product while
`fft.multiply` raises. -/
theorem C3_counterexample_selection_not_by_max :
    specSelectedAlgorithm ((2 : Int) ^ 4095) 1 = MulAlg.karatsubaAlg ∧
    selectedAlgorithm ((2 : Int) ^ 4095) 1 = MulAlg.schoolbook ∧
    MulAlg.karatsubaAlg ≠ MulAlg.schoolbook ∧
    ¬ (max (bit_length ((65536 : Int) ^ (2 ^ 22))) (bit_length (1 : Int))
        < FFT_THRESHOLD) ∧
    Multiplication.multiply ((65536 : Int) ^ (2 ^ 22)) 1
      = .ok ((65536 : Int) ^ (2 ^ 22) * 1) ∧
    FFT.multiply ((65536 : Int) ^ (2 ^ 22)) 1
      = .error FFT.MulError.unsupportedTransformSize := by
  have h4095 : bit_length ((2 : Int) ^ 4095) = 4096 := by
    rw [bit_length_two_pow]
  have hbig : bit_length ((65536 : Int) ^ (2 ^ 22)) = 16 * 2 ^ 22 + 1 :=
    bit_length_base_pow _
  have hfft1 : FFT.multiply ((65536 : Int) ^ (2 ^ 22)) 1
      = .error FFT.MulError.unsupportedTransformSize := by
    have h := fft_error_at_base_pows (2 ^ 22) 0 23
      (by norm_num) (by norm_num) (by decide)
    rw [pow_zero] at h
    exact h
  refine ⟨?_, ?_, by simp, ?_, ?_, hfft1⟩
  · simp only [specSelectedAlgorithm, KARATSUBA_THRESHOLD, FFT_THRESHOLD]
    rw [h4095, bit_length_one]
    rw [if_neg (by omega), if_pos (by omega)]
  · simp only [selectedAlgorithm, KARATSUBA_THRESHOLD]
    rw [h4095, bit_length_one]
    rw [if_pos (by omega)]
  · rw [hbig, bit_length_one]
    simp only [FFT_THRESHOLD]
    omega
  · simp only [Multiplication.multiply, KARATSUBA_THRESHOLD]
    rw [bit_length_one]
    rw [if_pos (by omega)]

open PyFib PyFib.FFT PyFib.Multiplication in
/-- Claim C3, amended: the dispatcher's selection is decided by the
minimum of the two operand bit-lengths (the source tests
`size_a < T or size_b < T`), with the stated thresholds; the branch so
selected computes the result (`a * b` directly, `karatsuba`, or the NTT
multiplier whose failure propagates). -/
theorem C3_selection_decided_by_min :
    ∀ a b : Int,
      selectedAlgorithm a b =
        (if min (bit_length a) (bit_length b) < KARATSUBA_THRESHOLD then
          MulAlg.schoolbook
        else if min (bit_length a) (bit_length b) < FFT_THRESHOLD then
          MulAlg.karatsubaAlg
        else MulAlg.nttAlg) ∧
      Multiplication.multiply a b =
        (match selectedAlgorithm a b with
          | .schoolbook => .ok (a * b)
          | .karatsubaAlg => .ok (Karatsuba.karatsuba a b)
          | .nttAlg => FFT.multiply a b) := by
  intro a b
  refine ⟨?_, multiply_matches_selection a b⟩
  by_cases h1 : bit_length a < KARATSUBA_THRESHOLD ∨
      bit_length b < KARATSUBA_THRESHOLD
  · rw [if_pos (min_lt_iff.mpr h1)]
    simp [selectedAlgorithm, h1]
  · rw [if_neg (fun hc => h1 (min_lt_iff.mp hc))]
    by_cases h2 : bit_length a < FFT_THRESHOLD ∨ bit_length b < FFT_THRESHOLD
    · rw [if_pos (min_lt_iff.mpr h2)]
      simp [selectedAlgorithm, h1, h2]
    · rw [if_neg (fun hc => h2 (min_lt_iff.mp hc))]
      simp [selectedAlgorithm, h1, h2]

open PyFib PyFib.FFT PyFib.Multiplication in
/-- Claim C5, counterexample: the claim says that when the NTT multiplier
would need a transform length with no table entry, the dispatcher falls
back to Karatsuba and still returns the product.  At a pair of operands
of `16 * 2 ^ 21 + 1` bits (NTT regime, transform length `2 ^ 23`, above
the table) the dispatcher instead propagates the hard failure and
returns no product. -/
theorem C5_counterexample_no_karatsuba_fallback :
    Multiplication.multiply ((65536 : Int) ^ (2 ^ 21))
        ((65536 : Int) ^ (2 ^ 21))
      = .error FFT.MulError.unsupportedTransformSize ∧
    Multiplication.multiply ((65536 : Int) ^ (2 ^ 21))
        ((65536 : Int) ^ (2 ^ 21))
      ≠ .ok ((65536 : Int) ^ (2 ^ 21) * (65536 : Int) ^ (2 ^ 21)) ∧
    Multiplication.multiply ((65536 : Int) ^ (2 ^ 21))
        ((65536 : Int) ^ (2 ^ 21))
      ≠ .ok (Karatsuba.karatsuba ((65536 : Int) ^ (2 ^ 21))
        ((65536 : Int) ^ (2 ^ 21))) := by
  have hbl : bit_length ((65536 : Int) ^ (2 ^ 21)) = 16 * 2 ^ 21 + 1 :=
    bit_length_base_pow _
  have hcond : ¬ (bit_length ((65536 : Int) ^ (2 ^ 21)) < FFT_THRESHOLD ∨
      bit_length ((65536 : Int) ^ (2 ^ 21)) < FFT_THRESHOLD) := by
    rw [hbl]
    norm_num [FFT_THRESHOLD]
  have hmul := multiply_ntt_branch _ _ hcond
  have hfft := fft_error_at_base_pows (2 ^ 21) (2 ^ 21) 23
    (by norm_num) (by norm_num) (by decide)
  refine ⟨?_, ?_, ?_⟩
  · rw [hmul]
    exact hfft
  · rw [hmul, hfft]
    simp
  · rw [hmul, hfft]
    simp

open PyFib PyFib.FFT PyFib.Multiplication in
/-- Claim C5, amended: when both operands are in the NTT regime and the
required transform length has no entry in the prime table, the
dispatcher `multiply` propagates the NTT multiplier's
unsupported-transform-size failure to its caller; there is no fallback
to Karatsuba. -/
theorem C5_dispatcher_propagates_unsupported_size (a b : Int)
    (hreg : ¬ (bit_length a < FFT_THRESHOLD ∨ bit_length b < FFT_THRESHOLD))
    (hN : FFT.NTT_PRIMES (computeN ((to_base a).length + (to_base b).length))
      = none) :
    Multiplication.multiply a b
      = .error FFT.MulError.unsupportedTransformSize := by
  rw [multiply_ntt_branch a b hreg]
  exact (fft_multiply_error_iff a b).mpr hN

open PyFib PyFib.FFT PyFib.Multiplication in
/-- Witness for the amended claim C5 at a concrete NTT-regime pair whose
transform length `2 ^ 23` has no table entry. -/
theorem C5_dispatcher_propagates_unsupported_size_witness :
    (¬ (bit_length ((65536 : Int) ^ (2 ^ 21 + 1)) < FFT_THRESHOLD ∨
        bit_length ((65536 : Int) ^ (2 ^ 21 + 1)) < FFT_THRESHOLD)) ∧
    FFT.NTT_PRIMES (computeN
        ((to_base ((65536 : Int) ^ (2 ^ 21 + 1))).length +
          (to_base ((65536 : Int) ^ (2 ^ 21 + 1))).length)) = none ∧
    Multiplication.multiply ((65536 : Int) ^ (2 ^ 21 + 1))
        ((65536 : Int) ^ (2 ^ 21 + 1))
      = .error FFT.MulError.unsupportedTransformSize := by
  have hreg : ¬ (bit_length ((65536 : Int) ^ (2 ^ 21 + 1)) < FFT_THRESHOLD ∨
      bit_length ((65536 : Int) ^ (2 ^ 21 + 1)) < FFT_THRESHOLD) := by
    rw [bit_length_base_pow]
    norm_num [FFT_THRESHOLD]
  have hlen : (to_base ((65536 : Int) ^ (2 ^ 21 + 1))).length
      = 2 ^ 21 + 2 := by
    rw [← BASE_eq, to_base_base_pow_length]
  have hN : FFT.NTT_PRIMES (computeN
      ((to_base ((65536 : Int) ^ (2 ^ 21 + 1))).length +
        (to_base ((65536 : Int) ^ (2 ^ 21 + 1))).length)) = none := by
    rw [hlen]
    rw [computeN_eq_pow _ 23 (by norm_num) (by norm_num)]
    decide
  exact ⟨hreg, hN,
    C5_dispatcher_propagates_unsupported_size _ _ hreg hN⟩

open PyFib PyFib.FFT PyFib.Multiplication in
/-- Claim C6: for nonnegative operands the NTT multiplier raises the
unsupported-transform-size error exactly when the transform length `N`
computed by its doubling loop has no entry in `NTT_PRIMES`; when an
entry exists it returns a value (it raises nothing, rather than
truncating the transform); `N` is the least power of two at least the
combined digit count `len(a) + len(b)`; and the table's keys are exactly
`2 ^ 10` through `2 ^ 20`. -/
theorem C6_ntt_raises_iff_unsupported_transform_size (a b : Int)
    (ha : 0 ≤ a) (hb : 0 ≤ b) :
    (FFT.multiply a b = .error FFT.MulError.unsupportedTransformSize ↔
      FFT.NTT_PRIMES (computeN ((to_base a).length + (to_base b).length))
        = none) ∧
    (∀ pr, FFT.NTT_PRIMES (computeN
        ((to_base a).length + (to_base b).length)) = some pr →
      ∃ v, FFT.multiply a b = .ok v) ∧
    ((to_base a).length + (to_base b).length
      ≤ computeN ((to_base a).length + (to_base b).length)) ∧
    (∃ k, computeN ((to_base a).length + (to_base b).length) = 2 ^ k ∧
      ∀ m, (to_base a).length + (to_base b).length ≤ 2 ^ m → k ≤ m) ∧
    (∀ N, FFT.NTT_PRIMES N = none ↔ ¬ ∃ k, 10 ≤ k ∧ k ≤ 20 ∧ N = 2 ^ k) := by
  obtain ⟨k, hk1, hk2, hk3⟩ :=
    computeN_spec ((to_base a).length + (to_base b).length)
  refine ⟨fft_multiply_error_iff a b,
    fun pr h => fft_multiply_ok_of_some a b pr h,
    ?_, ⟨k, hk1, hk3⟩, NTT_PRIMES_none_iff⟩
  rw [hk1]
  exact hk2

open PyFib PyFib.FFT PyFib.Multiplication in
/-- Witness for claim C6 at the concrete pair `(0, 0)` (two one-digit
lists, transform length 2, unsupported, so the direct NTT multiplier
raises). -/
theorem C6_ntt_raises_iff_unsupported_transform_size_witness :
    (0 : Int) ≤ 0 ∧
    ((FFT.multiply (0 : Int) (0 : Int)
        = .error FFT.MulError.unsupportedTransformSize ↔
      FFT.NTT_PRIMES (computeN
        ((to_base (0 : Int)).length + (to_base (0 : Int)).length))
        = none) ∧
    (∀ pr, FFT.NTT_PRIMES (computeN
        ((to_base (0 : Int)).length + (to_base (0 : Int)).length))
        = some pr →
      ∃ v, FFT.multiply (0 : Int) (0 : Int) = .ok v) ∧
    ((to_base (0 : Int)).length + (to_base (0 : Int)).length
      ≤ computeN ((to_base (0 : Int)).length + (to_base (0 : Int)).length)) ∧
    (∃ k, computeN ((to_base (0 : Int)).length + (to_base (0 : Int)).length)
        = 2 ^ k ∧
      ∀ m, (to_base (0 : Int)).length + (to_base (0 : Int)).length ≤ 2 ^ m →
        k ≤ m) ∧
    (∀ N, FFT.NTT_PRIMES N = none ↔
      ¬ ∃ k, 10 ≤ k ∧ k ≤ 20 ∧ N = 2 ^ k)) :=
  ⟨le_refl 0,
    C6_ntt_raises_iff_unsupported_transform_size 0 0 (le_refl 0) (le_refl 0)⟩

namespace PyFib.Calculator

/-- The first `m + 1` Fibonacci numbers as integers. -/
def fibListI (m : Nat) : List Int :=
  (List.range (m + 1)).map (fun i => (Nat.fib i : Int))

/-- Length of the Fibonacci prefix list. -/
theorem fibListI_length (m : Nat) : (fibListI m).length = m + 1 := by
  simp [fibListI]

/-- Entries of the Fibonacci prefix list. -/
theorem fibListI_getD (m k : Nat) (h : k ≤ m) :
    (fibListI m).getD k 0 = (Nat.fib k : Int) := by
  have hlt : k < (fibListI m).length := by
    rw [fibListI_length]
    omega
  rw [List.getD_eq_getElem _ _ hlt]
  simp [fibListI]

/-- One table-construction step extends a Fibonacci prefix by the next
Fibonacci number. -/
theorem lutStep_fibList (m : Nat) (hm : 1 ≤ m) :
    lutStep (fibListI m) = fibListI (m + 1) := by
  unfold lutStep
  rw [fibListI_length]
  have h1 : m + 1 - 1 = m := by omega
  have h2 : m + 1 - 2 = m - 1 := by omega
  rw [h1, h2, fibListI_getD m m (le_refl m),
    fibListI_getD m (m - 1) (by omega)]
  have hfib : (Nat.fib m : Int) + (Nat.fib (m - 1) : Int)
      = (Nat.fib (m + 1) : Int) := by
    have hstep := Nat.fib_add_two (n := m - 1)
    have hm1 : m - 1 + 2 = m + 1 := by omega
    have hm2 : m - 1 + 1 = m := by omega
    rw [hm1, hm2] at hstep
    exact_mod_cast (by omega : Nat.fib m + Nat.fib (m - 1) = Nat.fib (m + 1))
  rw [hfib]
  unfold fibListI
  rw [List.range_succ, List.range_succ, List.range_succ]
  simp

/-- Iterating the table construction from a Fibonacci prefix yields the
longer Fibonacci prefix. -/
theorem lutBuild_fibList (k : Nat) :
    ∀ m, 1 ≤ m → lutBuild k (fibListI m) = fibListI (m + k) := by
  induction k with
  | zero => intro m _; rfl
  | succ k ih =>
    intro m hm
    show lutBuild k (lutStep (fibListI m)) = _
    rw [lutStep_fibList m hm, ih (m + 1) (by omega)]
    congr 1
    omega

/-- The pre-computed lookup table holds exactly the first 94 Fibonacci
numbers. -/
theorem lut_eq_fibList : _fib_lookup_table = fibListI 93 := by
  have h01 : ([0, 1] : List Int) = fibListI 1 := by
    simp [fibListI, List.range_succ]
  unfold _fib_lookup_table
  rw [h01, lutBuild_fibList 92 1 (le_refl 1)]

/-- Value of a lookup in the pre-computed table. -/
theorem lut_getD (k : Nat) (h : k ≤ 93) :
    _fib_lookup_table.getD k 0 = (Nat.fib k : Int) := by
  rw [lut_eq_fibList, fibListI_getD 93 k h]

end PyFib.Calculator

open PyFib PyFib.Calculator PyFib.FastDoubling PyFib.MatrixExponentiation
  PyFibonacci.Algorithms in
/-- Claim C2: the claim says `FastDoubling.calculate_core`,
`MatrixExponentiation.calculate_core` and `fib_iterative` agree for all
`0 ≤ n ≤ 1000`.  This evaluates the code at the failing input `n = 2`:
the fast-doubling core returns `0` (it skips the leading bit of `n` but
still starts from `(F(0), F(1))`, so it computes
`F(n - 2 ^ floor(log2 n))`), while the matrix core and the iterative
reference both return `F(2) = 1`. -/
theorem C2_cross_validation_fails_at_two :
    (PyFib.FastDoubling.calculate_core 2).1 = .ok 0 ∧
    (PyFib.MatrixExponentiation.calculate_core 2).1 = .ok 1 ∧
    fib_iterative 2 = .ok 1 ∧
    (0 : Int) ≠ 1 := by
  refine ⟨?_, ?_, ?_, by norm_num⟩
  · simp [PyFib.FastDoubling.calculate_core, bitsGo, fdLoop, totalWork]
  · simp [PyFib.MatrixExponentiation.calculate_core, mxLoop, mulMat, sqSym,
      PyFib.natBitLength]
  · simp [fib_iterative, iterGo]

open PyFib PyFib.Calculator PyFib.FastDoubling PyFib.MatrixExponentiation
  PyFibonacci.Algorithms in
/-- Claim C4: the claim says every exposed evaluator returns
`F(0) = 0`, `F(1) = 1`, `F(10) = 55`, `F(50) = 12586269025` and
`F(100) = 354224848179261915075`.  The lookup-table fast path (indices up
to 93) and the pyfibonacci entry points do; but the decorated calculator
over the fast-doubling core returns `F(36) = 14930352` at `n = 100`,
because that core computes `F(n - 2 ^ floor(log2 n))`.  This theorem
evaluates all the exposed evaluators at the claimed indices, exhibiting
the failure. -/
theorem C4_concrete_values_with_fast_doubling_failure :
    (calculate PyFib.FastDoubling.calculate_core 0).1 = .ok 0 ∧
    (calculate PyFib.FastDoubling.calculate_core 1).1 = .ok 1 ∧
    (calculate PyFib.FastDoubling.calculate_core 10).1 = .ok 55 ∧
    (calculate PyFib.FastDoubling.calculate_core 50).1 = .ok 12586269025 ∧
    (calculate PyFib.MatrixExponentiation.calculate_core 0).1 = .ok 0 ∧
    (calculate PyFib.MatrixExponentiation.calculate_core 1).1 = .ok 1 ∧
    (calculate PyFib.MatrixExponentiation.calculate_core 10).1 = .ok 55 ∧
    (calculate PyFib.MatrixExponentiation.calculate_core 50).1
      = .ok 12586269025 ∧
    (calculate PyFib.MatrixExponentiation.calculate_core 100).1
      = .ok 354224848179261915075 ∧
    (calculate PyFib.FastDoubling.calculate_core 100).1 = .ok 14930352 ∧
    (14930352 : Int) ≠ 354224848179261915075 ∧
    fib_fast_doubling 0 = .ok 0 ∧
    fib_fast_doubling 1 = .ok 1 ∧
    fib_fast_doubling 10 = .ok 55 ∧
    fib_fast_doubling 50 = .ok 12586269025 ∧
    fib_fast_doubling 100 = .ok 354224848179261915075 ∧
    fib_matrix 0 = .ok 0 ∧
    fib_matrix 1 = .ok 1 ∧
    fib_matrix 10 = .ok 55 ∧
    fib_matrix 50 = .ok 12586269025 ∧
    fib_matrix 100 = .ok 354224848179261915075 := by
  have hlut : ∀ core : CoreFn, ∀ k : Nat, k ≤ 93 →
      (calculate core (k : Int)).1 = .ok (Nat.fib k : Int) := by
    intro core k hk
    unfold calculate
    rw [if_neg (by omega), if_pos (by exact_mod_cast hk)]
    show Except.ok (_fib_lookup_table.getD ((k : Int)).toNat 0)
      = Except.ok (Nat.fib k : Int)
    rw [Int.toNat_natCast, lut_getD k hk]
  refine ⟨?_, ?_, ?_, ?_, ?_, ?_, ?_, ?_, ?_, ?_, by norm_num,
    ?_, ?_, ?_, ?_, ?_, ?_, ?_, ?_, ?_, ?_⟩
  · have h := hlut PyFib.FastDoubling.calculate_core 0 (by omega)
    norm_num at h
    exact h
  · have h := hlut PyFib.FastDoubling.calculate_core 1 (by omega)
    norm_num at h
    exact h
  · have h := hlut PyFib.FastDoubling.calculate_core 10 (by omega)
    norm_num [show Nat.fib 10 = 55 from by decide] at h
    exact h
  · have h := hlut PyFib.FastDoubling.calculate_core 50 (by omega)
    norm_num [show Nat.fib 50 = 12586269025 from by decide] at h
    exact h
  · have h := hlut PyFib.MatrixExponentiation.calculate_core 0 (by omega)
    norm_num at h
    exact h
  · have h := hlut PyFib.MatrixExponentiation.calculate_core 1 (by omega)
    norm_num at h
    exact h
  · have h := hlut PyFib.MatrixExponentiation.calculate_core 10 (by omega)
    norm_num [show Nat.fib 10 = 55 from by decide] at h
    exact h
  · have h := hlut PyFib.MatrixExponentiation.calculate_core 50 (by omega)
    norm_num [show Nat.fib 50 = 12586269025 from by decide] at h
    exact h
  · simp [calculate, PyFib.MatrixExponentiation.calculate_core, mxLoop,
      mulMat, sqSym, PyFib.natBitLength, MAX_FIB_UINT64]
  · simp [calculate, PyFib.FastDoubling.calculate_core, bitsGo, fdLoop,
      totalWork, MAX_FIB_UINT64]
  · simp [fib_fast_doubling, fdPair]
  · simp [fib_fast_doubling, fdPair]
  · simp [fib_fast_doubling, fdPair]
  · simp [fib_fast_doubling, fdPair]
  · simp [fib_fast_doubling, fdPair]
  · simp [fib_matrix, matrix_power, mulMat4]
  · simp [fib_matrix, matrix_power, mulMat4]
  · simp [fib_matrix, matrix_power, mulMat4]
  · simp [fib_matrix, matrix_power, mulMat4]
  · simp [fib_matrix, matrix_power, mulMat4]

namespace PyFib.Calculator

/-- Wrapping an exception in a `RuntimeError` never returns the same
exception value. -/
theorem runtimeError_ne (e : PyErr) : PyErr.runtimeError e ≠ e := by
  induction e with
  | valueError => exact fun h => PyErr.noConfusion h
  | runtimeError c ih =>
    intro h
    injection h with h2
    exact ih h2

end PyFib.Calculator

open PyFib PyFib.Calculator PyFibonacci.Algorithms in
/-- Claim C8: every evaluator entry point rejects a negative index with
an invalid-argument (`ValueError`) failure and returns no result; the
decorated calculator does so before invoking the core and before any
progress report (its delivered progress trace is empty). -/
theorem C8_negative_index_rejected (n : Int) (hn : n < 0) :
    (∀ core : CoreFn, calculate core n = (.error .valueError, [])) ∧
    fib_iterative n = .error .valueError ∧
    fib_matrix n = .error .valueError ∧
    fib_fast_doubling n = .error .valueError := by
  refine ⟨fun core => ?_, ?_, ?_, ?_⟩
  · unfold calculate
    rw [if_pos hn]
  · unfold fib_iterative
    rw [if_pos hn]
  · unfold fib_matrix
    rw [if_pos hn]
  · unfold fib_fast_doubling
    rw [if_pos hn]

open PyFib PyFib.Calculator PyFibonacci.Algorithms in
/-- Witness for claim C8 at the concrete index `-1`. -/
theorem C8_negative_index_rejected_witness :
    (-1 : Int) < 0 ∧
    ((∀ core : CoreFn, calculate core (-1) = (.error .valueError, [])) ∧
    fib_iterative (-1) = .error .valueError ∧
    fib_matrix (-1) = .error .valueError ∧
    fib_fast_doubling (-1) = .error .valueError) :=
  ⟨by norm_num, C8_negative_index_rejected (-1) (by norm_num)⟩

open PyFib PyFib.Calculator in
/-- Claim C9: for `0 ≤ n ≤ 93` the decorated calculator returns the
pre-computed lookup-table value directly, delivers exactly the progress
report `1.0`, and never invokes the wrapped core: its behaviour is the
same for every core. -/
theorem C9_lookup_table_short_circuit (n : Int) (h0 : 0 ≤ n)
    (h93 : n ≤ 93) :
    (∀ core : CoreFn,
      calculate core n = (.ok (_fib_lookup_table.getD n.toNat 0), [1])) ∧
    (∀ core core' : CoreFn, calculate core n = calculate core' n) := by
  have hmain : ∀ core : CoreFn,
      calculate core n = (.ok (_fib_lookup_table.getD n.toNat 0), [1]) := by
    intro core
    unfold calculate
    rw [if_neg (by omega), if_pos (by unfold MAX_FIB_UINT64; exact_mod_cast h93)]
    have hf : reportFilter [1] = [1] := by
      unfold reportFilter
      norm_num
    rw [hf]
  exact ⟨hmain, fun core core' => (hmain core).trans (hmain core').symm⟩

open PyFib PyFib.Calculator PyFib.FastDoubling in
/-- Witness for claim C9 at the concrete boundary index `93` and two
cores that differ everywhere (one of them always failing). -/
theorem C9_lookup_table_short_circuit_witness :
    (0 : Int) ≤ 93 ∧ (93 : Int) ≤ 93 ∧
    ((∀ core : CoreFn,
      calculate core 93 = (.ok (_fib_lookup_table.getD (93 : Int).toNat 0),
        [1])) ∧
    (∀ core core' : CoreFn, calculate core 93 = calculate core' 93)) :=
  ⟨by norm_num, by norm_num,
    C9_lookup_table_short_circuit 93 (by norm_num) (by norm_num)⟩

open PyFib PyFib.Calculator in
/-- Claim C10: for `n > 93`, when the wrapped core raises any exception,
the caller of the decorated calculator receives a `RuntimeError` that
chains the original exception; the original exception value itself is
never propagated unchanged. -/
theorem C10_core_exceptions_wrapped (core : CoreFn) (n : Int) (e : PyErr)
    (ps : List ℚ) (hn : 93 < n) (hcore : core n.toNat = (.error e, ps)) :
    (calculate core n).1 = .error (.runtimeError e) ∧
    PyErr.runtimeError e ≠ e := by
  refine ⟨?_, runtimeError_ne e⟩
  unfold calculate
  rw [if_neg (by omega), if_neg (by unfold MAX_FIB_UINT64; push_cast; omega)]
  rw [hcore]

open PyFib PyFib.Calculator in
/-- Witness for claim C10 at index `94` with a core that raises a
`ValueError`. -/
theorem C10_core_exceptions_wrapped_witness :
    (93 : Int) < 94 ∧
    (fun _ : Nat => ((.error .valueError : Except PyErr Int), ([] : List ℚ)))
      ((94 : Int).toNat) = (.error .valueError, []) ∧
    (((calculate
        (fun _ : Nat =>
          ((.error .valueError : Except PyErr Int), ([] : List ℚ)))
        94).1 = .error (.runtimeError .valueError)) ∧
      PyErr.runtimeError .valueError ≠ PyErr.valueError) :=
  ⟨by norm_num, rfl,
    C10_core_exceptions_wrapped
      (fun _ : Nat => ((.error .valueError : Except PyErr Int), ([] : List ℚ)))
      94 .valueError [] (by norm_num) rfl⟩

namespace PyFib.FastDoubling

/-- The reports emitted by the fast-doubling loop are non-decreasing,
bounded by the current weighted-progress value from below and by one
from above. -/
theorem fd_reports (bits : List Bool) :
    ∀ (fk fk1 : Int) (i wd tw : Nat),
      (fdLoop bits fk fk1 i wd tw).2.Chain' (· ≤ ·) ∧
      ∀ x ∈ (fdLoop bits fk fk1 i wd tw).2,
        min (((wd : ℚ) + 4 ^ i) / (tw : ℚ)) 1 ≤ x ∧ 0 ≤ x ∧ x ≤ 1 := by
  induction bits with
  | nil =>
    intro fk fk1 i wd tw
    simp [fdLoop]
  | cons b rest ih =>
    intro fk fk1 i wd tw
    have key : ∀ (fk2 fk12 : Int),
        ((if 0 < tw then [min (((wd : ℚ) + 4 ^ i) / (tw : ℚ)) 1] else [])
            ++ (fdLoop rest fk2 fk12 (i + 1) (wd + 4 ^ i) tw).2).Chain'
          (· ≤ ·) ∧
        ∀ x ∈ (if 0 < tw then [min (((wd : ℚ) + 4 ^ i) / (tw : ℚ)) 1]
              else [])
            ++ (fdLoop rest fk2 fk12 (i + 1) (wd + 4 ^ i) tw).2,
          min (((wd : ℚ) + 4 ^ i) / (tw : ℚ)) 1 ≤ x ∧ 0 ≤ x ∧ x ≤ 1 := by
      intro fk2 fk12
      obtain ⟨ihc, ihb⟩ := ih fk2 fk12 (i + 1) (wd + 4 ^ i) tw
      by_cases htw : 0 < tw
      · have htQ : (0 : ℚ) < (tw : ℚ) := by exact_mod_cast htw
        have hnum : ((wd : ℚ) + 4 ^ i) ≤ ((wd + 4 ^ i : Nat) : ℚ) + 4 ^ (i + 1) := by
          push_cast
          have h4 : (0 : ℚ) ≤ 4 ^ (i + 1) := by positivity
          linarith
        have hqq : min (((wd : ℚ) + 4 ^ i) / (tw : ℚ)) 1
            ≤ min ((((wd + 4 ^ i : Nat) : ℚ) + 4 ^ (i + 1)) / (tw : ℚ)) 1 := by
          apply min_le_min _ (le_refl 1)
          exact (div_le_div_iff_of_pos_right htQ).mpr hnum
        have hq0 : (0 : ℚ) ≤ min (((wd : ℚ) + 4 ^ i) / (tw : ℚ)) 1 := by
          apply le_min _ zero_le_one
          apply div_nonneg _ htQ.le
          positivity
        have hq1 : min (((wd : ℚ) + 4 ^ i) / (tw : ℚ)) 1 ≤ 1 := min_le_right _ _
        rw [if_pos htw]
        rw [List.singleton_append]
        constructor
        · rw [List.chain'_cons']
          refine ⟨?_, ihc⟩
          intro y hy
          have hmem := List.mem_of_mem_head? hy
          exact le_trans hqq (ihb y hmem).1
        · intro x hx
          rcases List.mem_cons.mp hx with hx1 | hx2
          · subst hx1
            exact ⟨le_refl _, hq0, hq1⟩
          · obtain ⟨hl, h0, h1⟩ := ihb x hx2
            exact ⟨le_trans hqq hl, h0, h1⟩
      · have htw0 : tw = 0 := by omega
        subst htw0
        rw [if_neg htw]
        rw [List.nil_append]
        refine ⟨ihc, ?_⟩
        intro x hx
        obtain ⟨_, h0, h1⟩ := ihb x hx
        refine ⟨?_, h0, h1⟩
        have hz : ((0 : Nat) : ℚ) = 0 := by norm_num
        rw [hz, div_zero]
        have : min (0 : ℚ) 1 = 0 := by norm_num
        rw [this]
        exact h0
    cases b
    · simpa [fdLoop] using key (fk * (2 * fk1 - fk)) (fk * fk + fk1 * fk1)
    · simpa [fdLoop] using key (fk * fk + fk1 * fk1)
        (fk * (2 * fk1 - fk) + (fk * fk + fk1 * fk1))

/-- The fast-doubling core always returns a value, and its raw reports
are a non-decreasing sequence inside `[0, 1]`. -/
theorem fd_core_spec (n : Nat) :
    ∃ v ps, PyFib.FastDoubling.calculate_core n = (.ok v, ps) ∧
      ps.Chain' (· ≤ ·) ∧ ∀ x ∈ ps, 0 ≤ x ∧ x ≤ 1 := by
  unfold PyFib.FastDoubling.calculate_core
  by_cases h0 : n = 0
  · rw [if_pos h0]
    exact ⟨0, [], rfl, List.chain'_nil, by simp⟩
  · rw [if_neg h0]
    by_cases h1 : n = 1
    · rw [if_pos h1]
      exact ⟨1, [], rfl, List.chain'_nil, by simp⟩
    · rw [if_neg h1]
      obtain ⟨hc, hb⟩ := fd_reports (bitsGo n).tail 0 1 1 0
        (totalWork (bitsGo n).length)
      exact ⟨_, _, rfl, hc, fun x hx => ⟨(hb x hx).2.1, (hb x hx).2.2⟩⟩

end PyFib.FastDoubling

namespace PyFib.MatrixExponentiation

/-- The reports emitted by the matrix-exponentiation loop are
non-decreasing, bounded below by the first fraction emitted and by one
from above. -/
theorem mx_reports (expo bl : Nat) :
    ∀ (cnt i : Nat) (result base : Matrix2x2), i + cnt ≤ bl →
      (mxLoop expo bl cnt i result base).2.Chain' (· ≤ ·) ∧
      ∀ x ∈ (mxLoop expo bl cnt i result base).2,
        ((i : ℚ) + 1) / (bl : ℚ) ≤ x ∧ 0 ≤ x ∧ x ≤ 1 := by
  intro cnt
  induction cnt with
  | zero =>
    intro i result base _
    simp [mxLoop]
  | succ cnt ih =>
    intro i result base hle
    have hbl : 0 < bl := by omega
    have hblQ : (0 : ℚ) < (bl : ℚ) := by exact_mod_cast hbl
    have hrep0 : (0 : ℚ) ≤ ((i : ℚ) + 1) / (bl : ℚ) := by
      apply div_nonneg _ hblQ.le
      positivity
    have hrep1 : ((i : ℚ) + 1) / (bl : ℚ) ≤ 1 := by
      rw [div_le_one hblQ]
      have : i + 1 ≤ bl := by omega
      exact_mod_cast this
    have hmono : ((i : ℚ) + 1) / (bl : ℚ) ≤ (((i + 1 : Nat) : ℚ) + 1) / (bl : ℚ) := by
      apply (div_le_div_iff_of_pos_right hblQ).mpr
      push_cast
      linarith
    have key : ∀ (result2 base2 : Matrix2x2),
        (((i : ℚ) + 1) / (bl : ℚ)
            :: (mxLoop expo bl cnt (i + 1) result2 base2).2).Chain' (· ≤ ·) ∧
        ∀ x ∈ ((i : ℚ) + 1) / (bl : ℚ)
            :: (mxLoop expo bl cnt (i + 1) result2 base2).2,
          ((i : ℚ) + 1) / (bl : ℚ) ≤ x ∧ 0 ≤ x ∧ x ≤ 1 := by
      intro result2 base2
      obtain ⟨ihc, ihb⟩ := ih (i + 1) result2 base2 (by omega)
      constructor
      · rw [List.chain'_cons']
        refine ⟨?_, ihc⟩
        intro y hy
        have hmem := List.mem_of_mem_head? hy
        exact le_trans hmono (ihb y hmem).1
      · intro x hx
        rcases List.mem_cons.mp hx with hx1 | hx2
        · subst hx1
          exact ⟨le_refl _, hrep0, hrep1⟩
        · obtain ⟨hl, h0, h1⟩ := ihb x hx2
          exact ⟨le_trans hmono hl, h0, h1⟩
    simpa [mxLoop] using key
      (if (expo >>> i) &&& 1 = 1 then mulMat result base else result)
      (if i < bl - 1 then sqSym base else base)

/-- The matrix-exponentiation core always returns a value, and its raw
reports are a non-decreasing sequence inside `[0, 1]`. -/
theorem mx_core_spec (n : Nat) :
    ∃ v ps, PyFib.MatrixExponentiation.calculate_core n = (.ok v, ps) ∧
      ps.Chain' (· ≤ ·) ∧ ∀ x ∈ ps, 0 ≤ x ∧ x ≤ 1 := by
  unfold PyFib.MatrixExponentiation.calculate_core
  by_cases h0 : n = 0
  · rw [if_pos h0]
    exact ⟨0, [], rfl, List.chain'_nil, by simp⟩
  · rw [if_neg h0]
    by_cases h1 : n = 1
    · rw [if_pos h1]
      exact ⟨1, [], rfl, List.chain'_nil, by simp⟩
    · rw [if_neg h1]
      obtain ⟨hc, hb⟩ := mx_reports (n - 1) (PyFib.natBitLength (n - 1))
        (PyFib.natBitLength (n - 1)) 0 ⟨1, 0, 0, 1⟩ ⟨1, 1, 1, 0⟩ (by omega)
      exact ⟨_, _, rfl, hc, fun x hx => ⟨(hb x hx).2.1, (hb x hx).2.2⟩⟩

end PyFib.MatrixExponentiation

namespace PyFib.Calculator

/-- The progress contract of the presentation layer: a non-decreasing
sequence of fractions in `[0, 1]` whose final element is exactly one. -/
def goodTrace (t : List ℚ) : Prop :=
  t.Chain' (· ≤ ·) ∧ (∀ x ∈ t, 0 ≤ x ∧ x ≤ 1) ∧ t.getLast? = some 1

/-- Any core that always succeeds with an in-range, non-decreasing raw
report sequence yields, through the decorated calculator, a delivered
progress trace satisfying the progress contract. -/
theorem calc_trace_good (core : CoreFn)
    (hcore : ∀ m : Nat, ∃ v ps, core m = (.ok v, ps) ∧
      ps.Chain' (· ≤ ·) ∧ ∀ x ∈ ps, 0 ≤ x ∧ x ≤ 1)
    (n : Int) : goodTrace ((calculate core n).2) ∨ n < 0 := by
  by_cases hneg : n < 0
  · right
    exact hneg
  left
  by_cases hsmall : n ≤ (MAX_FIB_UINT64 : Int)
  · unfold calculate
    rw [if_neg hneg, if_pos hsmall]
    have hf : reportFilter [1] = [1] := by
      unfold reportFilter
      norm_num
    rw [hf]
    refine ⟨List.chain'_singleton 1, ?_, rfl⟩
    intro x hx
    rcases List.mem_singleton.mp hx with rfl
    norm_num
  · obtain ⟨v, ps, hval, hchain, hbnd⟩ := hcore n.toNat
    unfold calculate
    rw [if_neg hneg, if_neg hsmall, hval]
    have hfull : ∀ x ∈ ps ++ [1], 0 ≤ x ∧ x ≤ (1 : ℚ) := by
      intro x hx
      rcases List.mem_append.mp hx with hx1 | hx2
      · exact hbnd x hx1
      · rcases List.mem_singleton.mp hx2 with rfl
        norm_num
    have hfilter : reportFilter (ps ++ [1]) = ps ++ [1] := by
      unfold reportFilter
      apply List.filter_eq_self.mpr
      intro x hx
      exact decide_eq_true (And.intro (hfull x hx).1 (hfull x hx).2)
    show goodTrace (reportFilter (ps ++ [1]))
    rw [hfilter]
    refine ⟨?_, hfull, List.getLast?_concat ps⟩
    apply hchain.append (List.chain'_singleton 1)
    intro x hx y hy
    rcases List.mem_singleton.mp (List.mem_of_mem_head? hy) with rfl
    exact (hbnd x (List.mem_of_mem_getLast? hx)).2

end PyFib.Calculator

open PyFib PyFib.Calculator in
/-- Claim C7: for every successful calculation through
`Calculator.calculate` over either core, the sequence of values
delivered to the progress callback is non-decreasing, all its values lie
in `[0, 1]`, and the final delivered value is exactly `1.0` (floats are
modelled as exact rationals; the final report is the literal `1.0`). -/
theorem C7_progress_trace_contract (core : CoreFn) (n : Int)
    (hcore : core = PyFib.FastDoubling.calculate_core ∨
      core = PyFib.MatrixExponentiation.calculate_core)
    (hok : ((calculate core n).1).isOk = true) :
    goodTrace ((calculate core n).2) := by
  have hspec : ∀ m : Nat, ∃ v ps, core m = (.ok v, ps) ∧
      ps.Chain' (· ≤ ·) ∧ ∀ x ∈ ps, 0 ≤ x ∧ x ≤ 1 := by
    rcases hcore with rfl | rfl
    · exact PyFib.FastDoubling.fd_core_spec
    · exact PyFib.MatrixExponentiation.mx_core_spec
  rcases calc_trace_good core hspec n with hgood | hneg
  · exact hgood
  · exfalso
    unfold calculate at hok
    rw [if_pos hneg] at hok
    simp [Except.isOk, Except.toBool] at hok

open PyFib PyFib.Calculator in
/-- Witness for claim C7: the fast-doubling core through the decorated
calculator at the concrete index 100 succeeds, so its delivered trace
satisfies the progress contract. -/
theorem C7_progress_trace_contract_witness :
    (PyFib.FastDoubling.calculate_core = PyFib.FastDoubling.calculate_core ∨
      PyFib.FastDoubling.calculate_core
        = PyFib.MatrixExponentiation.calculate_core) ∧
    ((calculate PyFib.FastDoubling.calculate_core 100).1).isOk = true ∧
    goodTrace ((calculate PyFib.FastDoubling.calculate_core 100).2) := by
  have hok : ((calculate PyFib.FastDoubling.calculate_core 100).1).isOk
      = true := by
    have hv : (calculate PyFib.FastDoubling.calculate_core 100).1
        = .ok 14930352 := by
      simp [calculate, PyFib.FastDoubling.calculate_core,
        PyFib.FastDoubling.bitsGo, PyFib.FastDoubling.fdLoop,
        PyFib.FastDoubling.totalWork, MAX_FIB_UINT64]
    rw [hv]
    rfl
  exact ⟨Or.inl rfl, hok,
    C7_progress_trace_contract PyFib.FastDoubling.calculate_core 100
      (Or.inl rfl) hok⟩
